import Mathlib

/-!
Verification of the convergence-evaluation logic of `ahkab/utilities.py`
(functions `convergence_check`, `voltage_convergence_check`,
`current_convergence_check`, `custom_convergence_check`).

Vectors are modelled as `List ℚ` (the code's column vectors of reals);
the process-wide tolerance module `options` is modelled as an explicit
record passed to the two specialised checks.  `numpy.allclose(a, b, rtol,
atol)` on equal-length finite vectors means
`for all i, |a_i - b_i| <= atol + rtol * |b_i|`, which `np_allclose`
states directly.  The diagnostic loop of `custom_convergence_check`
(append per-element verdicts, `break` at the first `False`) is the
recursion `debugLoopAux` over the index list `range (len x)`; element
access `v[i, 0]` is `List.getD i 0`, which agrees with the source at
every in-bounds index (the only indices the loop reads are those of
`range (len x)`).  `vector_norm` is fixed to its default `abs`, the value
used by every caller in the module.
-/

namespace Ahkab

/-- The four process-wide tolerances read from the `options` module:
relative and absolute error for voltage-like unknowns (`ver`, `vea`)
and for current-like unknowns (`ier`, `iea`). -/
structure Options where
  ver : ℚ
  vea : ℚ
  ier : ℚ
  iea : ℚ
  deriving DecidableEq, Repr

/-- Meaning of `numpy.allclose(a, b, rtol, atol)` on equal-length real
vectors: every component satisfies `|a_i - b_i| <= atol + rtol * |b_i|`. -/
def np_allclose (a b : List ℚ) (rtol atol : ℚ) : Bool :=
  decide (∀ i < a.length, |a.getD i 0 - b.getD i 0| ≤ atol + rtol * |b.getD i 0|)

/-- The per-element test of the diagnostic branch (line 298 of the
source): `vector_norm(dx[i,0]) < er * vector_norm(x[i,0]) + ea and
vector_norm(residuum[i,0]) < eresiduum`, with `vector_norm = abs`. -/
def okElem (xi dxi ri : ℚ) (er ea eresiduum : ℚ) : Bool :=
  decide (|dxi| < er * |xi| + ea ∧ |ri| < eresiduum)

/-- The diagnostic loop of `custom_convergence_check`: walk the index
list in order, append each element's verdict to `all_check_results`,
and `break` right after appending the first `False`. -/
def debugLoopAux (x dx residuum : List ℚ) (er ea eresiduum : ℚ) :
    List ℕ → List Bool
  | [] => []
  | i :: is =>
    let ok := okElem (x.getD i 0) (dx.getD i 0) (residuum.getD i 0) er ea eresiduum
    if ok then ok :: debugLoopAux x dx residuum er ea eresiduum is else [ok]

/-- `custom_convergence_check(x, dx, residuum, er, ea, eresiduum,
vector_norm=abs, debug)` from `utilities.py`.  Non-empty `x`, `debug`
false: `numpy.allclose(x, x+dx, rtol=er, atol=ea) and
numpy.allclose(residuum, zeros, atol=eresiduum, rtol=0)`, detail list
left empty.  Non-empty `x`, `debug` true: the element loop, and the
verdict `False not in all_check_results`.  Empty `x`: `(True, [])`. -/
def custom_convergence_check (x dx residuum : List ℚ)
    (er ea eresiduum : ℚ) (debug : Bool) : Bool × List Bool :=
  if x.length ≠ 0 then
    if !debug then
      (np_allclose x (List.zipWith (· + ·) x dx) er ea &&
         np_allclose residuum (List.replicate residuum.length 0) 0 eresiduum,
       [])
    else
      let all_check_results :=
        debugLoopAux x dx residuum er ea eresiduum (List.range x.length)
      (decide (false ∉ all_check_results), all_check_results)
  else
    (true, [])

/-- `voltage_convergence_check(x, dx, residuum, debug)`: delegates with
`er=options.ver, ea=options.vea, eresiduum=options.iea`. -/
def voltage_convergence_check (o : Options) (x dx residuum : List ℚ)
    (debug : Bool) : Bool × List Bool :=
  custom_convergence_check x dx residuum o.ver o.vea o.iea debug

/-- `current_convergence_check(x, dx, residuum, debug)`: delegates with
`er=options.ier, ea=options.iea, eresiduum=options.vea`. -/
def current_convergence_check (o : Options) (x dx residuum : List ℚ)
    (debug : Bool) : Bool × List Bool :=
  custom_convergence_check x dx residuum o.ier o.iea o.vea debug

/-- `convergence_check(x, dx, residuum, nv_minus_one, debug)`: slice the
three vectors at `nv_minus_one` (Python slicing of a non-negative index
is `take` / `drop`), run the voltage check on the prefix and the current
check on the suffix — both called without the `debug` argument, so in
default non-diagnostic mode — and combine as
`(vcheck and icheck, vresults + iresults)`. -/
def convergence_check (o : Options) (x dx residuum : List ℚ)
    (nv_minus_one : ℕ) (debug : Bool) : Bool × List Bool :=
  let v := voltage_convergence_check o (x.take nv_minus_one)
    (dx.take nv_minus_one) (residuum.take nv_minus_one) false
  let c := current_convergence_check o (x.drop nv_minus_one)
    (dx.drop nv_minus_one) (residuum.drop nv_minus_one) false
  (v.1 && c.1, v.2 ++ c.2)

/-! Helper lemmas about the embedded definitions. -/

theorem np_allclose_eq_true_iff (a b : List ℚ) (rtol atol : ℚ) :
    np_allclose a b rtol atol = true ↔
      ∀ i < a.length, |a.getD i 0 - b.getD i 0| ≤ atol + rtol * |b.getD i 0| := by
  simp [np_allclose]

theorem getD_zipWith_add (x dx : List ℚ) (i : ℕ)
    (h : dx.length = x.length) (hi : i < x.length) :
    (List.zipWith (· + ·) x dx).getD i 0 = x.getD i 0 + dx.getD i 0 := by
  induction x generalizing dx i with
  | nil => simp at hi
  | cons a t ih =>
    cases dx with
    | nil => simp at h
    | cons b tb =>
      cases i with
      | zero => simp
      | succ n =>
        simp only [List.zipWith_cons_cons, List.getD_cons_succ]
        exact ih tb n (by simp at h; exact h) (by simp at hi; exact hi)

theorem getD_replicate_zero (n i : ℕ) :
    (List.replicate n (0 : ℚ)).getD i 0 = 0 := by
  induction n generalizing i with
  | zero => simp [List.getD]
  | succ m ih =>
    cases i with
    | zero => simp [List.replicate_succ]
    | succ j =>
      rw [List.replicate_succ, List.getD_cons_succ]
      exact ih j

theorem false_notMem_debugLoopAux (x dx residuum : List ℚ)
    (er ea eresiduum : ℚ) (is : List ℕ) :
    false ∉ debugLoopAux x dx residuum er ea eresiduum is ↔
      ∀ i ∈ is, okElem (x.getD i 0) (dx.getD i 0) (residuum.getD i 0)
        er ea eresiduum = true := by
  induction is with
  | nil => simp [debugLoopAux]
  | cons i t ih =>
    simp only [debugLoopAux]
    cases h : okElem (x.getD i 0) (dx.getD i 0) (residuum.getD i 0)
        er ea eresiduum with
    | true =>
      simp only [List.getD_eq_getElem?_getD] at h
      simp [ih, h]
    | false =>
      simp only [List.getD_eq_getElem?_getD] at h
      simp [h]

theorem debugLoopAux_length_le (x dx residuum : List ℚ)
    (er ea eresiduum : ℚ) (is : List ℕ) :
    (debugLoopAux x dx residuum er ea eresiduum is).length ≤ is.length := by
  induction is with
  | nil => simp [debugLoopAux]
  | cons i t ih =>
    simp only [debugLoopAux]
    cases h : okElem (x.getD i 0) (dx.getD i 0) (residuum.getD i 0)
        er ea eresiduum with
    | true =>
      simp only [if_pos rfl, List.length_cons]
      exact Nat.succ_le_succ ih
    | false => simp

theorem debugLoopAux_append_fail (x dx residuum : List ℚ)
    (er ea eresiduum : ℚ) (is₁ is₂ : List ℕ) (k : ℕ)
    (h1 : ∀ j ∈ is₁, okElem (x.getD j 0) (dx.getD j 0) (residuum.getD j 0)
      er ea eresiduum = true)
    (hk : okElem (x.getD k 0) (dx.getD k 0) (residuum.getD k 0)
      er ea eresiduum = false) :
    debugLoopAux x dx residuum er ea eresiduum (is₁ ++ k :: is₂)
      = List.replicate is₁.length true ++ [false] := by
  induction is₁ with
  | nil =>
    simp only [List.nil_append, debugLoopAux, hk]
    simp
  | cons i t ih =>
    have hi : okElem (x.getD i 0) (dx.getD i 0) (residuum.getD i 0)
        er ea eresiduum = true := h1 i (List.mem_cons_self i t)
    have ht : ∀ j ∈ t, okElem (x.getD j 0) (dx.getD j 0) (residuum.getD j 0)
        er ea eresiduum = true := fun j hj => h1 j (List.mem_cons_of_mem i hj)
    rw [List.cons_append]
    simp only [debugLoopAux, hi, if_pos rfl, List.append_eq]
    rw [ih ht]
    simp [List.replicate_succ]

theorem custom_snd_nondebug (x dx residuum : List ℚ) (er ea eresiduum : ℚ) :
    (custom_convergence_check x dx residuum er ea eresiduum false).2 = [] := by
  by_cases h : x.length = 0 <;> simp [custom_convergence_check, h]

theorem getD_replicate_append_lt (k j : ℕ) (hj : j < k) :
    (List.replicate k true ++ [false]).getD j false = true := by
  induction k generalizing j with
  | zero => omega
  | succ m ih =>
    rw [List.replicate_succ]
    cases j with
    | zero => simp
    | succ n =>
      rw [List.cons_append, List.getD_cons_succ]
      exact ih n (by omega)

/-! Claim theorems. -/

/-- C3: `voltage_convergence_check` is `custom_convergence_check` with
`er = ver`, `ea = vea` and residual tolerance `eresiduum = iea` (the
current absolute tolerance), and `current_convergence_check` is
`custom_convergence_check` with `er = ier`, `ea = iea` and residual
tolerance `eresiduum = vea` (the voltage absolute tolerance): the
residual tolerances are cross-wired between the two physical types. -/
theorem voltage_current_checks_cross_wired (o : Options)
    (x dx residuum : List ℚ) (debug : Bool) :
    voltage_convergence_check o x dx residuum debug
        = custom_convergence_check x dx residuum o.ver o.vea o.iea debug ∧
      current_convergence_check o x dx residuum debug
        = custom_convergence_check x dx residuum o.ier o.iea o.vea debug :=
  ⟨rfl, rfl⟩

/-- C4: `convergence_check` splits the three vectors at `nv_minus_one`,
runs the voltage check on the prefix and the current check on the suffix,
always in non-diagnostic mode (the `debug` flag is never forwarded), and
returns the conjunction of the verdicts with the concatenated detail
lists; consequently its detail list is always empty. -/
theorem convergence_check_splits_and_ignores_debug (o : Options)
    (x dx residuum : List ℚ) (nv_minus_one : ℕ) (debug : Bool) :
    convergence_check o x dx residuum nv_minus_one debug
        = ((voltage_convergence_check o (x.take nv_minus_one)
              (dx.take nv_minus_one) (residuum.take nv_minus_one) false).1
            && (current_convergence_check o (x.drop nv_minus_one)
              (dx.drop nv_minus_one) (residuum.drop nv_minus_one) false).1,
           (voltage_convergence_check o (x.take nv_minus_one)
              (dx.take nv_minus_one) (residuum.take nv_minus_one) false).2
            ++ (current_convergence_check o (x.drop nv_minus_one)
              (dx.drop nv_minus_one) (residuum.drop nv_minus_one) false).2) ∧
      (convergence_check o x dx residuum nv_minus_one debug).2 = [] := by
  refine ⟨rfl, ?_⟩
  show (voltage_convergence_check o (x.take nv_minus_one)
      (dx.take nv_minus_one) (residuum.take nv_minus_one) false).2
    ++ (current_convergence_check o (x.drop nv_minus_one)
      (dx.drop nv_minus_one) (residuum.drop nv_minus_one) false).2 = []
  rw [voltage_convergence_check, current_convergence_check,
    custom_snd_nondebug, custom_snd_nondebug]
  rfl

/-- C5: on zero-length vectors, `custom_convergence_check` returns
exactly `(true, [])` for every tolerance setting and either mode: an
empty partition is vacuously convergent. -/
theorem custom_convergence_check_empty (er ea eresiduum : ℚ) (debug : Bool) :
    custom_convergence_check [] [] [] er ea eresiduum debug = (true, []) :=
  rfl

/-- C10: `custom_convergence_check` is total: for every vectors (of any
lengths, including zero) and arbitrary tolerance values (including zero
and negative ones) it returns a pair of a boolean and a detail list whose
length never exceeds the length of `x`; non-convergence is the value
`false`, never an error. -/
theorem custom_convergence_check_total (x dx residuum : List ℚ)
    (er ea eresiduum : ℚ) (debug : Bool) :
    ∃ b l, custom_convergence_check x dx residuum er ea eresiduum debug
        = (b, l) ∧ l.length ≤ x.length := by
  refine ⟨(custom_convergence_check x dx residuum er ea eresiduum debug).1,
    (custom_convergence_check x dx residuum er ea eresiduum debug).2,
    rfl, ?_⟩
  by_cases hx : x.length = 0
  · simp [custom_convergence_check, hx]
  · cases debug with
    | false => simp [custom_convergence_check, hx]
    | true =>
      cases x with
      | nil => simp at hx
      | cons a t =>
        exact le_trans
          (debugLoopAux_length_le (a :: t) dx residuum er ea eresiduum
            (List.range (a :: t).length))
          (by simp)

/-- C1: in non-diagnostic mode, `custom_convergence_check` returns
`(b, [])` where `b` is true iff every step satisfies
`|dx[i]| ≤ er * |x[i] + dx[i]| + ea` (relative to the post-update value,
non-strict) and every residual satisfies `|residuum[i]| ≤ eresiduum`
(purely absolute, non-strict). -/
theorem aggregate_mode_semantics (x dx residuum : List ℚ)
    (er ea eresiduum : ℚ)
    (hdx : dx.length = x.length) (hr : residuum.length = x.length) :
    (custom_convergence_check x dx residuum er ea eresiduum false).2 = [] ∧
      ((custom_convergence_check x dx residuum er ea eresiduum false).1 = true ↔
        (∀ i < x.length, |dx.getD i 0| ≤ er * |x.getD i 0 + dx.getD i 0| + ea) ∧
        (∀ i < x.length, |residuum.getD i 0| ≤ eresiduum)) := by
  refine ⟨custom_snd_nondebug x dx residuum er ea eresiduum, ?_⟩
  by_cases hx : x.length = 0
  · have hxe : x = [] := List.length_eq_zero.mp hx
    subst hxe
    simp [custom_convergence_check]
  · simp only [custom_convergence_check]
    rw [if_pos hx]
    show (np_allclose x (List.zipWith (· + ·) x dx) er ea &&
        np_allclose residuum (List.replicate residuum.length 0) 0 eresiduum)
          = true ↔ _
    rw [Bool.and_eq_true, np_allclose_eq_true_iff, np_allclose_eq_true_iff]
    refine and_congr ?_ ?_
    · constructor
      · intro h i hi
        have h2 := h i hi
        rw [getD_zipWith_add x dx i hdx hi] at h2
        have e : x.getD i 0 - (x.getD i 0 + dx.getD i 0) = -(dx.getD i 0) := by
          ring
        rw [e, abs_neg] at h2
        linarith
      · intro h i hi
        have h2 := h i hi
        rw [getD_zipWith_add x dx i hdx hi]
        have e : x.getD i 0 - (x.getD i 0 + dx.getD i 0) = -(dx.getD i 0) := by
          ring
        rw [e, abs_neg]
        linarith
    · constructor
      · intro h i hi
        have h2 := h i (by rw [hr]; exact hi)
        rw [getD_replicate_zero] at h2
        simp only [sub_zero, abs_abs, zero_mul, add_zero] at h2
        simpa using h2
      · intro h i hi
        have h2 := h i (by rw [hr] at hi; exact hi)
        rw [getD_replicate_zero]
        simpa using h2

/-- Witness for C1 at a concrete converged input. -/
theorem aggregate_mode_semantics_witness :
    (custom_convergence_check [1] [0] [0] 1 1 1 false).2 = [] ∧
      ((custom_convergence_check [1] [0] [0] 1 1 1 false).1 = true ↔
        (∀ i < ([1] : List ℚ).length,
          |([0] : List ℚ).getD i 0| ≤
            1 * |([1] : List ℚ).getD i 0 + ([0] : List ℚ).getD i 0| + 1) ∧
        (∀ i < ([1] : List ℚ).length, |([0] : List ℚ).getD i 0| ≤ 1)) :=
  aggregate_mode_semantics [1] [0] [0] 1 1 1 rfl rfl

/-- C2: in diagnostic mode, elements are checked in index order with the
strict pre-update test `okElem`, each verdict is appended to the detail
list, and the loop stops right after the first failure: if `k` is the
first failing index, the detail list is `replicate k true ++ [false]`, so
it has length `k + 1`, its last entry is `false` and all earlier entries
are `true`; the returned boolean is true iff no `false` appears in the
detail list. -/
theorem diagnostic_short_circuit (x dx residuum : List ℚ)
    (er ea eresiduum : ℚ) (k : ℕ) (hk : k < x.length)
    (hfail : okElem (x.getD k 0) (dx.getD k 0) (residuum.getD k 0)
      er ea eresiduum = false)
    (hbefore : ∀ j < k, okElem (x.getD j 0) (dx.getD j 0) (residuum.getD j 0)
      er ea eresiduum = true) :
    (custom_convergence_check x dx residuum er ea eresiduum true).2
        = List.replicate k true ++ [false] ∧
      (custom_convergence_check x dx residuum er ea eresiduum true).2.length
        = k + 1 ∧
      (custom_convergence_check x dx residuum er ea eresiduum true).2.getLast?
        = some false ∧
      (∀ j < k, (custom_convergence_check x dx residuum
        er ea eresiduum true).2.getD j false = true) ∧
      ((custom_convergence_check x dx residuum er ea eresiduum true).1 = true ↔
        false ∉ (custom_convergence_check x dx residuum er ea eresiduum
          true).2) := by
  have hxne : x.length ≠ 0 := Nat.not_eq_zero_of_lt hk
  have hmain : custom_convergence_check x dx residuum er ea eresiduum true
      = (decide (false ∉ debugLoopAux x dx residuum er ea eresiduum
          (List.range x.length)),
         debugLoopAux x dx residuum er ea eresiduum (List.range x.length)) := by
    simp only [custom_convergence_check]
    rw [if_pos hxne]
    rfl
  have hsplit : List.range x.length
      = List.range' 0 k ++ k :: List.range' (k + 1) (x.length - k - 1) := by
    obtain ⟨m, hm⟩ : ∃ m, x.length = (m + 1) + k :=
      ⟨x.length - k - 1, by omega⟩
    have hm2 : x.length - k - 1 = m := by omega
    rw [List.range_eq_range', hm2, hm, ← List.range'_append 0 k (m + 1) 1]
    have h2 : 0 + 1 * k = k := by omega
    rw [h2, List.range'_succ]
  have h1' : ∀ j ∈ List.range' 0 k,
      okElem (x.getD j 0) (dx.getD j 0) (residuum.getD j 0)
        er ea eresiduum = true := by
    intro j hj
    exact hbefore j (by have := List.mem_range'_1.mp hj; omega)
  have hloop : debugLoopAux x dx residuum er ea eresiduum (List.range x.length)
      = List.replicate k true ++ [false] := by
    rw [hsplit, debugLoopAux_append_fail x dx residuum er ea eresiduum
      (List.range' 0 k) (List.range' (k + 1) (x.length - k - 1)) k h1' hfail,
      List.length_range']
  rw [hmain, hloop]
  refine ⟨rfl, by simp, List.getLast?_concat _, ?_, by simp⟩
  intro j hj
  exact getD_replicate_append_lt k j hj

/-- Witness for C2: `x = [1,1]`, `dx = [0,2]`, `residuum = [0,0]`,
unit tolerances; the first failing index is `k = 1`, so the detail list
has length 2. -/
theorem diagnostic_short_circuit_witness :
    (custom_convergence_check [1, 1] [0, 2] [0, 0] 1 1 1 true).2.length
      = 1 + 1 :=
  (diagnostic_short_circuit [1, 1] [0, 2] [0, 0] 1 1 1 1 (by norm_num)
    (by
      show okElem 1 2 0 1 1 1 = false
      norm_num [okElem, abs_two])
    (fun j hj => by
      have hj0 : j = 0 := by omega
      subst hj0
      show okElem 1 0 0 1 1 1 = true
      norm_num [okElem])).2.1

/-- C6: with partition index `len(x)` the current-side sub-check runs on
empty vectors and yields `(true, [])`, and the overall result equals the
voltage check on the full vectors; with partition index `0` the overall
result equals the current check on the full vectors. -/
theorem empty_partition_boundaries (o : Options) (x dx residuum : List ℚ)
    (debug : Bool)
    (hdx : dx.length = x.length) (hr : residuum.length = x.length) :
    current_convergence_check o (x.drop x.length) (dx.drop x.length)
        (residuum.drop x.length) false = (true, []) ∧
      convergence_check o x dx residuum x.length debug
        = voltage_convergence_check o x dx residuum false ∧
      convergence_check o x dx residuum 0 debug
        = current_convergence_check o x dx residuum false := by
  have hdx1 : dx.length ≤ x.length := le_of_eq hdx
  have hr1 : residuum.length ≤ x.length := le_of_eq hr
  have hdropx : x.drop x.length = [] := List.drop_length x
  have hdropdx : dx.drop x.length = [] := List.drop_eq_nil_of_le hdx1
  have hdropr : residuum.drop x.length = [] := List.drop_eq_nil_of_le hr1
  have htakex : x.take x.length = x := List.take_length x
  have htakedx : dx.take x.length = dx := List.take_of_length_le hdx1
  have htaker : residuum.take x.length = residuum :=
    List.take_of_length_le hr1
  refine ⟨?_, ?_, ?_⟩
  · rw [hdropx, hdropdx, hdropr]
    rfl
  · simp only [convergence_check]
    rw [htakex, htakedx, htaker, hdropx, hdropdx, hdropr]
    have hc : current_convergence_check o [] [] [] false = (true, []) := rfl
    rw [hc]
    simp
  · simp only [convergence_check]
    rw [List.take_zero, List.take_zero, List.take_zero,
      List.drop_zero, List.drop_zero, List.drop_zero]
    have hv : voltage_convergence_check o [] [] [] false = (true, []) := rfl
    rw [hv]
    simp

/-- Witness for C6 at a concrete one-element input. -/
theorem empty_partition_boundaries_witness :
    convergence_check ⟨1, 1, 1, 1⟩ [1] [0] [0] 1 true
      = voltage_convergence_check ⟨1, 1, 1, 1⟩ [1] [0] [0] false :=
  (empty_partition_boundaries ⟨1, 1, 1, 1⟩ [1] [0] [0] true rfl rfl).2.1

theorem getD_take_of_lt (l : List ℚ) (n i : ℕ) (d : ℚ) (h : i < n) :
    (l.take n).getD i d = l.getD i d := by
  rw [List.getD_eq_getElem?_getD, List.getD_eq_getElem?_getD,
    List.getElem?_take, if_pos h]

theorem debugLoopAux_congr (x dx dx2 residuum r2 : List ℚ)
    (er ea eresiduum : ℚ) (is : List ℕ)
    (hdx : ∀ i ∈ is, dx.getD i 0 = dx2.getD i 0)
    (hr : ∀ i ∈ is, residuum.getD i 0 = r2.getD i 0) :
    debugLoopAux x dx residuum er ea eresiduum is
      = debugLoopAux x dx2 r2 er ea eresiduum is := by
  induction is with
  | nil => rfl
  | cons i t ih =>
    have e1 : dx.getD i 0 = dx2.getD i 0 := hdx i (List.mem_cons_self i t)
    have e2 : residuum.getD i 0 = r2.getD i 0 := hr i (List.mem_cons_self i t)
    have iht := ih (fun j hj => hdx j (List.mem_cons_of_mem i hj))
      (fun j hj => hr j (List.mem_cons_of_mem i hj))
    simp only [debugLoopAux, e1, e2, iht]

/-- C7 counterexample: with `x = [0]`, `dx = [0, 5]`, `residuum = [0]`
(vector lengths 1, 2, 1, so not all equal) and unit tolerances in
diagnostic mode, the code raises nothing (the loop over `range(len(x))`
only reads index 0 of each vector, all in bounds) and returns the
ordinary verdict `(True, [True])`, identical to the result on the
silently truncated `dx = [0]`: a verdict is produced, no
`DimensionMismatch` error is surfaced and the extra element `5` of `dx`
is silently ignored. -/
theorem dimension_mismatch_counterexample :
    custom_convergence_check [0] [0, 5] [0] 1 1 1 true = (true, [true]) ∧
      custom_convergence_check [0] [0, 5] [0] 1 1 1 true
        = custom_convergence_check [0] [0] [0] 1 1 1 true := by
  have h0 : okElem 0 0 0 1 1 1 = true := by norm_num [okElem]
  have hrange : List.range 1 = [0] := rfl
  have e1 : custom_convergence_check [0] [0, 5] [0] 1 1 1 true
      = (true, [true]) := by
    simp [custom_convergence_check, debugLoopAux, hrange, h0]
  have e2 : custom_convergence_check [0] [0] [0] 1 1 1 true
      = (true, [true]) := by
    simp [custom_convergence_check, debugLoopAux, hrange, h0]
  exact ⟨e1, e1.trans e2.symm⟩

/-- C7 amended: the code performs no dimension validation and never
raises a `DimensionMismatch`.  A partition index at or above the common
vector length is silently clamped — `convergence_check` behaves exactly
as with partition index `len(x)` — and the diagnostic loop of
`custom_convergence_check` reads only the first `len(x)` elements of
`dx` and `residuum`, so longer `dx`/`residuum` are silently truncated
rather than rejected. -/
theorem no_dimension_validation (o : Options) (x dx residuum : List ℚ)
    (nv_minus_one : ℕ) (debug : Bool)
    (hdx : dx.length = x.length) (hr : residuum.length = x.length)
    (hnv : x.length ≤ nv_minus_one) :
    convergence_check o x dx residuum nv_minus_one debug
        = convergence_check o x dx residuum x.length debug ∧
      ∀ x2 dx2 r2 : List ℚ, ∀ er ea eresiduum : ℚ,
        custom_convergence_check x2 dx2 r2 er ea eresiduum true
          = custom_convergence_check x2 (dx2.take x2.length)
              (r2.take x2.length) er ea eresiduum true := by
  constructor
  · have hdx1 : dx.length ≤ x.length := le_of_eq hdx
    have hr1 : residuum.length ≤ x.length := le_of_eq hr
    simp only [convergence_check]
    rw [List.take_of_length_le (le_trans (le_refl _) hnv),
      List.take_of_length_le (le_trans hdx1 hnv),
      List.take_of_length_le (le_trans hr1 hnv),
      List.drop_eq_nil_of_le hnv,
      List.drop_eq_nil_of_le (le_trans hdx1 hnv),
      List.drop_eq_nil_of_le (le_trans hr1 hnv),
      List.take_length, List.take_of_length_le hdx1,
      List.take_of_length_le hr1, List.drop_length,
      List.drop_eq_nil_of_le hdx1, List.drop_eq_nil_of_le hr1]
  · intro x2 dx2 r2 er ea eresiduum
    by_cases hx2 : x2.length = 0
    · have hx2e : x2 = [] := List.length_eq_zero.mp hx2
      subst hx2e
      rfl
    · have hloop : debugLoopAux x2 dx2 r2 er ea eresiduum
          (List.range x2.length)
          = debugLoopAux x2 (dx2.take x2.length) (r2.take x2.length)
              er ea eresiduum (List.range x2.length) := by
        refine debugLoopAux_congr x2 dx2 (dx2.take x2.length) r2
          (r2.take x2.length) er ea eresiduum (List.range x2.length) ?_ ?_
        · intro i hi
          exact (getD_take_of_lt dx2 x2.length i 0
            (List.mem_range.mp hi)).symm
        · intro i hi
          exact (getD_take_of_lt r2 x2.length i 0
            (List.mem_range.mp hi)).symm
      simp only [custom_convergence_check]
      rw [if_pos hx2, if_pos hx2, hloop]
      rfl

/-- Witness for C7's amended statement: partition index 5 on length-1
vectors behaves exactly like partition index 1. -/
theorem no_dimension_validation_witness :
    convergence_check ⟨1, 1, 1, 1⟩ [0] [0] [0] 5 false
      = convergence_check ⟨1, 1, 1, 1⟩ [0] [0] [0] 1 false :=
  (no_dimension_validation ⟨1, 1, 1, 1⟩ [0] [0] [0] 5 false rfl rfl
    (by norm_num)).1

theorem np_allclose_single (u v rtol atol : ℚ) :
    np_allclose [u] [v] rtol atol = decide (|u - v| ≤ atol + rtol * |v|) := by
  simp only [np_allclose]
  rw [decide_eq_decide]
  constructor
  · intro h
    simpa using h 0 (by norm_num)
  · intro h i hi
    have hi0 : i = 0 := by simpa using hi
    subst hi0
    simpa using h

theorem custom_single (a b c er ea eresiduum : ℚ) :
    custom_convergence_check [a] [b] [c] er ea eresiduum false
      = (decide (|a - (a + b)| ≤ ea + er * |a + b|) &&
          decide (|c - 0| ≤ eresiduum + 0 * |(0 : ℚ)|), []) := by
  show (np_allclose [a] (List.zipWith (· + ·) [a] [b]) er ea &&
      np_allclose [c] (List.replicate 1 0) 0 eresiduum, ([] : List Bool)) = _
  rw [show List.zipWith (· + ·) [a] [b] = [a + b] from rfl,
    show List.replicate 1 (0 : ℚ) = [0] from rfl,
    np_allclose_single, np_allclose_single]

theorem evalE1 : custom_convergence_check [0] [1] [0] 0 0 0 false
    = (false, []) := by
  rw [custom_single]
  rw [decide_eq_false (by norm_num :
      ¬(|(0:ℚ) - (0 + 1)| ≤ 0 + 0 * |(0:ℚ) + 1|)),
    decide_eq_true (by norm_num : (|(0:ℚ) - 0| ≤ 0 + 0 * |(0:ℚ)|))]
  rfl

theorem evalE2 : custom_convergence_check [0] [1] [0] 0 2 0 false
    = (true, []) := by
  rw [custom_single]
  rw [decide_eq_true (by norm_num :
      (|(0:ℚ) - (0 + 1)| ≤ 2 + 0 * |(0:ℚ) + 1|)),
    decide_eq_true (by norm_num : (|(0:ℚ) - 0| ≤ 0 + 0 * |(0:ℚ)|))]
  rfl

theorem evalE3 : custom_convergence_check [0] [0] [1] 0 0 0 false
    = (false, []) := by
  rw [custom_single]
  rw [decide_eq_true (by norm_num :
      (|(0:ℚ) - (0 + 0)| ≤ 0 + 0 * |(0:ℚ) + 0|)),
    decide_eq_false (by norm_num : ¬(|(1:ℚ) - 0| ≤ 0 + 0 * |(0:ℚ)|))]
  rfl

theorem evalE4 : custom_convergence_check [0] [0] [1] 0 0 2 false
    = (true, []) := by
  rw [custom_single]
  rw [decide_eq_true (by norm_num :
      (|(0:ℚ) - (0 + 0)| ≤ 0 + 0 * |(0:ℚ) + 0|)),
    decide_eq_true (by norm_num : (|(1:ℚ) - 0| ≤ 2 + 0 * |(0:ℚ)|))]
  rfl

/-- C8 counterexample: the tolerances `⟨ver, vea, ier, iea⟩ = ⟨0,0,0,0⟩`
and `⟨0,0,0,2⟩` differ only in `iea`, yet `current_convergence_check` on
`x = [0]`, `dx = [1]`, `residuum = [0]` flips from non-converged to
converged (`iea` is the current check's absolute step tolerance `ea`);
symmetrically, `⟨0,0,0,0⟩` and `⟨0,2,0,0⟩` differ only in `vea`, yet
`voltage_convergence_check` flips on the same vectors (`vea` is the
voltage check's absolute step tolerance). -/
theorem cross_tolerance_counterexample :
    current_convergence_check ⟨0, 0, 0, 0⟩ [0] [1] [0] false
        ≠ current_convergence_check ⟨0, 0, 0, 2⟩ [0] [1] [0] false ∧
      voltage_convergence_check ⟨0, 0, 0, 0⟩ [0] [1] [0] false
        ≠ voltage_convergence_check ⟨0, 2, 0, 0⟩ [0] [1] [0] false := by
  have h1 : current_convergence_check ⟨0, 0, 0, 0⟩ [0] [1] [0] false
      = (false, []) := evalE1
  have h2 : current_convergence_check ⟨0, 0, 0, 2⟩ [0] [1] [0] false
      = (true, []) := evalE2
  have h3 : voltage_convergence_check ⟨0, 0, 0, 0⟩ [0] [1] [0] false
      = (false, []) := evalE1
  have h4 : voltage_convergence_check ⟨0, 2, 0, 0⟩ [0] [1] [0] false
      = (true, []) := evalE2
  refine ⟨?_, ?_⟩
  · rw [h1, h2]
    decide
  · rw [h3, h4]
    decide

/-- C8 amended: the voltage check's outcome depends only on `ver`,
`vea`, `iea`, and the current check's outcome only on `ier`, `iea`,
`vea`; so `ier` never affects the voltage check and `ver` never affects
the current check.  But changing only `iea` can change the outcome of
BOTH checks (`iea` is the voltage check's residual tolerance and the
current check's absolute step tolerance), and changing only `vea` can
likewise change both (`vea` is the voltage check's absolute step
tolerance and the current check's residual tolerance). -/
theorem cross_tolerance_amended (o o2 : Options)
    (x dx residuum : List ℚ) (debug : Bool) :
    (o.ver = o2.ver → o.vea = o2.vea → o.iea = o2.iea →
      voltage_convergence_check o x dx residuum debug
        = voltage_convergence_check o2 x dx residuum debug) ∧
    (o.ier = o2.ier → o.iea = o2.iea → o.vea = o2.vea →
      current_convergence_check o x dx residuum debug
        = current_convergence_check o2 x dx residuum debug) ∧
    (∃ p q : Options, p.ver = q.ver ∧ p.vea = q.vea ∧ p.ier = q.ier ∧
      (∃ y dy ry : List ℚ, voltage_convergence_check p y dy ry false
        ≠ voltage_convergence_check q y dy ry false) ∧
      (∃ y dy ry : List ℚ, current_convergence_check p y dy ry false
        ≠ current_convergence_check q y dy ry false)) ∧
    (∃ p q : Options, p.ver = q.ver ∧ p.ier = q.ier ∧ p.iea = q.iea ∧
      (∃ y dy ry : List ℚ, voltage_convergence_check p y dy ry false
        ≠ voltage_convergence_check q y dy ry false) ∧
      (∃ y dy ry : List ℚ, current_convergence_check p y dy ry false
        ≠ current_convergence_check q y dy ry false)) := by
  refine ⟨?_, ?_, ?_, ?_⟩
  · intro h1 h2 h3
    unfold voltage_convergence_check
    rw [h1, h2, h3]
  · intro h1 h2 h3
    unfold current_convergence_check
    rw [h1, h2, h3]
  · refine ⟨⟨0, 0, 0, 0⟩, ⟨0, 0, 0, 2⟩, rfl, rfl, rfl,
      ⟨[0], [0], [1], ?_⟩, ⟨[0], [1], [0], ?_⟩⟩
    · show custom_convergence_check [0] [0] [1] 0 0 0 false
        ≠ custom_convergence_check [0] [0] [1] 0 0 2 false
      rw [evalE3, evalE4]
      decide
    · show custom_convergence_check [0] [1] [0] 0 0 0 false
        ≠ custom_convergence_check [0] [1] [0] 0 2 0 false
      rw [evalE1, evalE2]
      decide
  · refine ⟨⟨0, 0, 0, 0⟩, ⟨0, 2, 0, 0⟩, rfl, rfl, rfl,
      ⟨[0], [1], [0], ?_⟩, ⟨[0], [0], [1], ?_⟩⟩
    · show custom_convergence_check [0] [1] [0] 0 0 0 false
        ≠ custom_convergence_check [0] [1] [0] 0 2 0 false
      rw [evalE1, evalE2]
      decide
    · show custom_convergence_check [0] [0] [1] 0 0 0 false
        ≠ custom_convergence_check [0] [0] [1] 0 0 2 false
      rw [evalE3, evalE4]
      decide

/-- Witness for C8's amended statement: two tolerance settings that
agree on `ver`, `vea`, `iea` (differing only in `ier`) give identical
voltage-check results at a concrete input. -/
theorem cross_tolerance_amended_witness :
    voltage_convergence_check ⟨1, 2, 3, 4⟩ [5] [6] [7] true
      = voltage_convergence_check ⟨1, 2, 9, 4⟩ [5] [6] [7] true :=
  (cross_tolerance_amended ⟨1, 2, 3, 4⟩ ⟨1, 2, 9, 4⟩ [5] [6] [7] true).1
    rfl rfl rfl

theorem okElem_mono (xi dxi ri er ea eresiduum er' ea' eresiduum' : ℚ)
    (h1 : er ≤ er') (h2 : ea ≤ ea') (h3 : eresiduum ≤ eresiduum')
    (h : okElem xi dxi ri er ea eresiduum = true) :
    okElem xi dxi ri er' ea' eresiduum' = true := by
  simp only [okElem, decide_eq_true_eq] at h ⊢
  obtain ⟨ha, hb⟩ := h
  constructor
  · have hm : er * |xi| ≤ er' * |xi| :=
      mul_le_mul_of_nonneg_right h1 (abs_nonneg xi)
    linarith
  · linarith

/-- C9: loosening the tolerances never turns a converged verdict into a
non-converged one: in either mode, if `custom_convergence_check` returns
`true` with tolerances `(er, ea, eresiduum)`, it also returns `true`
with any pointwise greater-or-equal tolerances. -/
theorem tolerance_monotonicity (x dx residuum : List ℚ)
    (er ea eresiduum er' ea' eresiduum' : ℚ) (debug : Bool)
    (h1 : er ≤ er') (h2 : ea ≤ ea') (h3 : eresiduum ≤ eresiduum')
    (h : (custom_convergence_check x dx residuum er ea eresiduum debug).1
      = true) :
    (custom_convergence_check x dx residuum er' ea' eresiduum' debug).1
      = true := by
  by_cases hx : x.length = 0
  · have hxe : x = [] := List.length_eq_zero.mp hx
    subst hxe
    rfl
  · cases debug with
    | false =>
      have hmain : ∀ e1 e2 e3 : ℚ,
          (custom_convergence_check x dx residuum e1 e2 e3 false).1
            = (np_allclose x (List.zipWith (· + ·) x dx) e1 e2 &&
               np_allclose residuum (List.replicate residuum.length 0)
                 0 e3) := by
        intro e1 e2 e3
        simp only [custom_convergence_check]
        rw [if_pos hx]
        rfl
      rw [hmain] at h ⊢
      rw [Bool.and_eq_true] at h ⊢
      obtain ⟨hs, hrs⟩ := h
      constructor
      · rw [np_allclose_eq_true_iff] at hs ⊢
        intro i hi
        have hstep := hs i hi
        have hmul : er * |(List.zipWith (· + ·) x dx).getD i 0|
            ≤ er' * |(List.zipWith (· + ·) x dx).getD i 0| :=
          mul_le_mul_of_nonneg_right h1 (abs_nonneg _)
        linarith
      · rw [np_allclose_eq_true_iff] at hrs ⊢
        intro i hi
        have hres := hrs i hi
        linarith
    | true =>
      have hmain : ∀ e1 e2 e3 : ℚ,
          (custom_convergence_check x dx residuum e1 e2 e3 true).1
            = decide (false ∉ debugLoopAux x dx residuum e1 e2 e3
                (List.range x.length)) := by
        intro e1 e2 e3
        simp only [custom_convergence_check]
        rw [if_pos hx]
        rfl
      rw [hmain] at h ⊢
      rw [decide_eq_true_eq] at h ⊢
      rw [false_notMem_debugLoopAux] at h ⊢
      intro i hi
      exact okElem_mono _ _ _ _ _ _ _ _ _ h1 h2 h3 (h i hi)

/-- Witness for C9: a verdict converged at unit tolerances stays
converged when every tolerance is doubled. -/
theorem tolerance_monotonicity_witness :
    (custom_convergence_check [1] [0] [0] 2 2 2 false).1 = true :=
  tolerance_monotonicity [1] [0] [0] 1 1 1 2 2 2 false (by norm_num)
    (by norm_num) (by norm_num)
    (by
      rw [custom_single]
      rw [decide_eq_true (by norm_num :
          (|(1:ℚ) - (1 + 0)| ≤ 1 + 1 * |(1:ℚ) + 0|)),
        decide_eq_true (by norm_num : (|(0:ℚ) - 0| ≤ 1 + 0 * |(0:ℚ)|))]
      rfl)

end Ahkab
